import Mathlib

/-!
# ZenithDB — shallow embedding and verification

A shallow embedding of the ZenithDB storage-and-indexing engine
(packages `document`, `query`, `indexing`, `storage`, `zenithdb`),
with theorems settling the specification's claims about it.

Modelling conventions:
* Go `interface{}` scalar payload values become the `Value` inductive type.
  Go `float64` is modelled by `ℚ`: every numeric literal appearing in the
  source's examples is exactly representable, and the code only ever
  compares and tests equality of floats, never does arithmetic on them.
* Go maps (`map[string]*Document`, `map[string]*Index`,
  `map[string]*Collection`) become association lists; `m[k] = v` is
  modelled by `assocPut` (replace-or-append).  Go's randomized map
  iteration order is fixed to list order; theorems that depend on
  iteration order use single-element maps so the order is irrelevant.
* The `google/btree` B-tree is modelled as a list kept sorted by the
  tree's comparator; `ReplaceOrInsert`, `Delete`, `Has` and
  `AscendGreaterOrEqual` act exactly as the btree API does: item
  identity is comparator-equality (neither item less than the other).
* Methods that mutate a receiver and return `error` become functions
  returning `α × Option String` (new state, error message if any), so a
  partially-applied mutation that then fails is visible in the model,
  as it is in Go.
* File I/O always succeeds in the model; `MemoryStorage.SaveCollection`
  is modelled as copying the collection's document map into the
  `savedFile` field, which stands for the on-disk JSON snapshot.
-/

namespace ZenithDB

/-- A Go scalar payload value as stored in document fields, query
conditions and index entries: `nil`, `bool`, `int`, `float64` (as `ℚ`)
or `string`. -/
inductive Value where
  | vNull : Value
  | vBool : Bool → Value
  | vInt : Int → Value
  | vFloat : ℚ → Value
  | vStr : String → Value
deriving DecidableEq

/-- The kind (Go reflect.Kind / dynamic type) of a value; two values
compare structurally equal in Go only if their kinds agree. -/
def Value.kind : Value → Nat
  | .vNull => 0
  | .vBool _ => 1
  | .vInt _ => 2
  | .vFloat _ => 3
  | .vStr _ => 4

/-- `fmt.Sprintf("%v", v)` for the kinds of values the model carries
(used by the source's comparator fallback branch only). -/
def Value.sprintf : Value → String
  | .vNull => "<nil>"
  | .vBool b => if b then "true" else "false"
  | .vInt n => toString n
  | .vFloat q => toString q
  | .vStr s => s

/-- `lessIndexEntry`'s comparison on values
(`src/database/indexing/index.go` lines 169–180): a type switch on the
first operand comparing `int`, `float64` and `string` by primitive
order, with a `Sprintf` fallback in the `default` branch.  When the
first operand is an `int`, `float64` or `string` and the second has a
different dynamic type, the Go code panics on the type assertion; the
model returns `false` there — no theorem in this file compares values
of different kinds through this function. -/
def lessValue : Value → Value → Bool
  | .vInt a, .vInt b => a < b
  | .vFloat a, .vFloat b => a < b
  | .vStr a, .vStr b => a < b
  | .vInt _, _ => false
  | .vFloat _, _ => false
  | .vStr _, _ => false
  | a, b => a.sprintf < b.sprintf

/-- One field of a Go struct payload: the Go field name (used by
`reflect.FieldByName`), the JSON key it marshals to (its `json:"..."`
tag, or the field name when untagged), its value, and whether it
carries the `index:"true"` struct tag. -/
structure StructField where
  name : String
  jsonName : String
  value : Value
  indexed : Bool
deriving DecidableEq

/-- A document payload (`Document.Data`, a Go `interface{}`): either a
(pointer to a) struct or a `map[string]interface{}` with scalar leaves,
or `nil`.  The source resolves both shapes through the same accessors. -/
inductive DocData where
  | strct : List StructField → DocData
  | map : List (String × Value) → DocData
  | none : DocData
deriving DecidableEq

/-- `document.Document`: an id plus an opaque payload
(`src/unnamed/part_010`). -/
structure Document where
  id : String
  data : DocData
deriving DecidableEq

/-- `indexing.getFieldValue` (`src/database/indexing/index.go` lines
257–294): reflective field resolution used by the index.  For a map,
look the key up verbatim, then retry with the lowercased key; for a
struct, `FieldByName` verbatim, then retry with the lowercased name;
otherwise (or when both lookups miss) return an error. -/
def getFieldValueIdx (data : DocData) (field : String) : Except String Value :=
  match data with
  | .map kvs =>
    match kvs.lookup field with
    | some v => .ok v
    | Option.none =>
      match kvs.lookup field.toLower with
      | some v => .ok v
      | Option.none => .error ("field '" ++ field.toLower ++ "' not found in map")
  | .strct fs =>
    match fs.find? (fun f => f.name == field) with
    | some f => .ok f.value
    | Option.none =>
      match fs.find? (fun f => f.name == field.toLower) with
      | some f => .ok f.value
      | Option.none => .error ("field '" ++ field.toLower ++ "' not found in struct")
  | .none => .error "data is a nil pointer"

/-- Equality of `Except` results is decidable; used to evaluate the
specification predicates on concrete states. -/
instance {e a : Type} [DecidableEq e] [DecidableEq a] : DecidableEq (Except e a) :=
  fun x y =>
    match x, y with
    | .ok u, .ok v =>
      if h : u = v then isTrue (h ▸ rfl) else isFalse (fun hh => h (Except.ok.inj hh))
    | .error u, .error v =>
      if h : u = v then isTrue (h ▸ rfl) else isFalse (fun hh => h (Except.error.inj hh))
    | .ok _, .error _ => isFalse (fun hh => Except.noConfusion hh)
    | .error _, .ok _ => isFalse (fun hh => Except.noConfusion hh)

/-- What `json.Marshal` followed by gjson's `result.Value()` does to a
scalar: JSON has a single number kind, so Go `int` values come back as
`float64`; all other scalars survive the round trip unchanged
(`query.getFieldValue`, `src/database/query/query.go` lines 158–184). -/
def jsonDecode : Value → Value
  | .vInt n => .vFloat (n : ℚ)
  | v => v

/-- The JSON-object key a payload entry is stored under: the `json` tag
for a struct field, the map key for a map. -/
def rawFieldLookup (data : DocData) (path : String) : Option Value :=
  match data with
  | .strct fs => (fs.find? (fun f => f.jsonName == path)).map (·.value)
  | .map kvs => kvs.lookup path
  | .none => Option.none

/-- `query.getFieldValue` (`src/database/query/query.go` lines
158–165): marshal the payload to JSON and resolve `path` with gjson;
a hit yields the JSON-decoded value, a miss yields Go `nil`. -/
def getFieldValueQ (data : DocData) (path : String) : Option Value :=
  (rawFieldLookup data path).map jsonDecode

/-- `query.Operator` (`src/database/query/query.go` lines 12–21). -/
inductive Operator where
  | eq | ne | gt | ge | lt | le
deriving DecidableEq

/-- `query.Condition` (`src/database/query/query.go` lines 23–28).
`relation` is the `Relation` field; it is empty in every code path the
claims exercise. -/
structure Condition where
  field : String
  op : Operator
  value : Value
  relation : String := ""
deriving DecidableEq

/-- `query.Query` (`src/database/query/query.go` lines 37–40).  The
`Populates` directives are carried by the struct but never read by
`Query.Matches`, `Index.Find`, `Index.CanUseIndex` or the cited
`Collection.Find` variants, so the model omits them. -/
structure Query where
  conditions : List Condition
deriving DecidableEq

/-- `query.NewQuery` (`src/database/query/query.go` lines 42–47). -/
def Query.new : Query := ⟨[]⟩

/-- `Query.Where` (`src/database/query/query.go` lines 49–61): append a
condition, return the query for chaining. -/
def Query.where (q : Query) (field : String) (op : Operator) (value : Value) : Query :=
  ⟨q.conditions ++ [⟨field, op, value, ""⟩]⟩

/-- `reflect.DeepEqual` restricted to the scalars the model carries:
equal dynamic type and equal value, with `nil` equal only to `nil`
(the resolved operand is `Option Value`, `Option.none` standing for
the Go `nil` interface). -/
def deepEqual (a : Option Value) (b : Value) : Bool :=
  match a with
  | some v => v == b
  | Option.none => false

/-- `query.compare` (`src/database/query/query.go` lines 186–242):
errors when the two dynamic types differ, compares `int`, `float64` and
`string` kinds by primitive order, and errors (`unsupported type`) on
any other kind.  `some o` is the sign of the comparison, `Option.none`
is an error.  (On a Go `nil` first operand `reflect.Value.Type` would
panic; `Condition.Matches` only reaches `compare` with the values the
theorems below supply.) -/
def compareGo : Value → Value → Option Int
  | .vInt a, .vInt b => some (if a < b then -1 else if b < a then 1 else 0)
  | .vFloat a, .vFloat b => some (if a < b then -1 else if b < a then 1 else 0)
  | .vStr a, .vStr b => some (if a < b then -1 else if b < a then 1 else 0)
  | .vBool _, .vBool _ => Option.none
  | .vNull, .vNull => Option.none
  | _, _ => Option.none

/-- `Condition.Matches` (`src/database/query/query.go` lines 127–156):
resolve the document's value at the condition's field (through the
JSON round trip); `=`/`!=` test `reflect.DeepEqual`; the four ordering
operators call `compare` and yield `false` whenever it errors.  A
non-empty `relation` resolves the related value first and then looks
the field up inside it; our payload leaves are scalars, and a gjson
path into a scalar resolves to nothing, so that branch yields Go `nil`.
With a `nil` resolved operand an ordering operator would panic inside
`compare` in Go; the model returns `false` there and no theorem relies
on that case. -/
def Condition.matches (c : Condition) (d : DocData) : Bool :=
  let value : Option Value :=
    if c.relation == "" then getFieldValueQ d c.field else Option.none
  match c.op with
  | .eq => deepEqual value c.value
  | .ne => !deepEqual value c.value
  | .gt =>
    match value with
    | some v => match compareGo v c.value with
      | some r => r > 0
      | Option.none => false
    | Option.none => false
  | .ge =>
    match value with
    | some v => match compareGo v c.value with
      | some r => r ≥ 0
      | Option.none => false
    | Option.none => false
  | .lt =>
    match value with
    | some v => match compareGo v c.value with
      | some r => r < 0
      | Option.none => false
    | Option.none => false
  | .le =>
    match value with
    | some v => match compareGo v c.value with
      | some r => r ≤ 0
      | Option.none => false
    | Option.none => false

/-- `Query.Matches` (`src/database/query/query.go` lines 73–80): the
conjunction of all conditions. -/
def Query.matches (q : Query) (d : DocData) : Bool :=
  q.conditions.all (fun c => c.matches d)

/-- `compare` of the earlier query variant (`src/unnamed/part_011`
lines 90–105): both operands must be Go `int`s — any other dynamic
type makes the assertion fail and the function return `0`.  The first
operand is the JSON-resolved document value, so it is never an `int`. -/
def compareV0 (a : Option Value) (b : Value) : Int :=
  match a, b with
  | some (.vInt x), .vInt y => if x < y then -1 else if y < x then 1 else 0
  | _, _ => 0

/-- `Condition.Matches` of the earlier query variant
(`src/unnamed/part_011` lines 55–74): like the current one but with
`compareV0`, whose `0` result on any non-`int` operand makes `>=`/`<=`
succeed and `>`/`<` fail. -/
def Condition.matchesV0 (c : Condition) (d : DocData) : Bool :=
  let value := getFieldValueQ d c.field
  match c.op with
  | .eq => deepEqual value c.value
  | .ne => !deepEqual value c.value
  | .gt => compareV0 value c.value > 0
  | .ge => compareV0 value c.value ≥ 0
  | .lt => compareV0 value c.value < 0
  | .le => compareV0 value c.value ≤ 0

/-- `indexing.indexEntry` (`src/database/indexing/index.go` lines
152–155): one B-tree item, a field value plus the id of the document it
came from. -/
structure IndexEntry where
  value : Value
  docID : String
deriving DecidableEq

/-- `lessIndexEntry` (`src/database/indexing/index.go` lines 169–180):
the B-tree comparator.  It compares the `Value` parts only — the
`DocID` never participates, so two entries with equal values are the
same item as far as the tree is concerned. -/
def lessIndexEntry (a b : IndexEntry) : Bool :=
  lessValue a.value b.value

/-- btree item identity: neither item is less than the other under the
tree's comparator. -/
def entryEq (a b : IndexEntry) : Bool :=
  !lessIndexEntry a b && !lessIndexEntry b a

/-- The B-tree contents, as the sorted list of its items in ascending
comparator order. -/
abbrev Tree := List IndexEntry

/-- `btree.ReplaceOrInsert`: if an item comparator-equal to `e` is in
the tree, replace it with `e`; otherwise insert `e` at its sorted
position. -/
def treeReplaceOrInsert (t : Tree) (e : IndexEntry) : Tree :=
  match t with
  | [] => [e]
  | x :: xs =>
    if lessIndexEntry e x then e :: x :: xs
    else if lessIndexEntry x e then x :: treeReplaceOrInsert xs e
    else e :: xs

/-- `btree.Delete`: remove the item comparator-equal to `e`, if any. -/
def treeDelete (t : Tree) (e : IndexEntry) : Tree :=
  match t with
  | [] => []
  | x :: xs =>
    if lessIndexEntry x e then x :: treeDelete xs e
    else if lessIndexEntry e x then x :: xs
    else xs

/-- `btree.Has`: is some item comparator-equal to `e` in the tree? -/
def treeHas (t : Tree) (e : IndexEntry) : Bool :=
  t.any (fun x => entryEq x e)

/-- `btree.AscendGreaterOrEqual` specialised to `Index.Find`'s callback
(`src/database/indexing/index.go` lines 242–248): iterate in ascending
order from the first item not below the pivot `{Value: v}`, collect doc
ids while the item's value still equals `v` (Go interface equality),
and stop at the first that does not. -/
def treeAscendEq (t : Tree) (v : Value) : List String :=
  ((t.dropWhile (fun x => lessValue x.value v)).takeWhile
      (fun x => x.value == v)).map (·.docID)

/-- `indexing.IndexOptions` (`src/database/indexing/index.go` lines
157–159). -/
structure IndexOptions where
  unique : Bool
deriving DecidableEq

/-- `indexing.Index` (`src/database/indexing/index.go` lines 145–150):
the indexed field, the options and the B-tree (the `sync.RWMutex` has
no sequential content). -/
structure Index where
  field : String
  options : IndexOptions
  tree : Tree
deriving DecidableEq

/-- `indexing.NewIndex` (`src/database/indexing/index.go` lines
161–167). -/
def Index.new (field : String) (options : IndexOptions) : Index :=
  ⟨field, options, []⟩

/-- `Index.Insert` (`src/database/indexing/index.go` lines 191–212):
resolve the doc's value at the indexed field (error if unresolvable);
on a unique index fail if the tree already has a comparator-equal
entry — i.e. any entry with an equal value, whatever its doc id;
otherwise `ReplaceOrInsert` the entry `(value, doc.ID)`. -/
def Index.insertDoc (i : Index) (doc : Document) : Index × Option String :=
  match getFieldValueIdx doc.data i.field with
  | .error e => (i, some e)
  | .ok v =>
    let entry : IndexEntry := ⟨v, doc.id⟩
    if i.options.unique && treeHas i.tree entry then
      (i, some "duplicate key value violates unique constraint")
    else
      ({ i with tree := treeReplaceOrInsert i.tree entry }, Option.none)

/-- `Index.Delete` (`src/database/indexing/index.go` lines 214–230):
resolve the doc's value (error if unresolvable) and delete the
comparator-equal tree item. -/
def Index.deleteDoc (i : Index) (doc : Document) : Index × Option String :=
  match getFieldValueIdx doc.data i.field with
  | .error e => (i, some e)
  | .ok v => ({ i with tree := treeDelete i.tree ⟨v, doc.id⟩ }, Option.none)

/-- `Index.CanUseIndex` (`src/database/indexing/index.go` lines
182–189): some condition mentions the indexed field. -/
def Index.canUseIndex (i : Index) (q : Query) : Bool :=
  q.conditions.any (fun c => c.field == i.field)

/-- `Index.Find` (`src/database/indexing/index.go` lines 232–255): for
the first condition whose field is the indexed field, scan ascending
from the condition's value and collect doc ids while the entry value
equals it; the condition's operator is never consulted.  No matching
condition yields the empty list; the error result is always `nil`. -/
def Index.findQ (i : Index) (q : Query) : List String :=
  match q.conditions.find? (fun c => c.field == i.field) with
  | some c => treeAscendEq i.tree c.value
  | Option.none => []

/-- Go map assignment `m[k] = v` on an association list: replace the
binding in place if the key is present, append otherwise. -/
def assocPut (l : List (String × α)) (k : String) (v : α) : List (String × α) :=
  match l with
  | [] => [(k, v)]
  | (k', v') :: rest => if k' == k then (k, v) :: rest else (k', v') :: assocPut rest k v

/-- Go `delete(m, k)` on an association list. -/
def assocErase (l : List (String × α)) (k : String) : List (String × α) :=
  match l with
  | [] => []
  | (k', v') :: rest => if k' == k then rest else (k', v') :: assocErase rest k

/-- The `for _, index := range c.indexes { index.Insert(doc) }` loop of
the collection mutators: apply `Index.Insert` to each index in turn,
stopping at the first error.  Indexes already processed keep their
update even when a later one fails, exactly as the in-place Go loop
does. -/
def indexesInsert : List (String × Index) → Document → List (String × Index) × Option String
  | [], _ => ([], Option.none)
  | (f, i) :: rest, doc =>
    match i.insertDoc doc with
    | (i', some e) => ((f, i') :: rest, some e)
    | (i', Option.none) =>
      let (rest', err) := indexesInsert rest doc
      ((f, i') :: rest', err)

/-- The `for _, index := range c.indexes { index.Delete(doc) }` loop of
`Collection.Delete`. -/
def indexesDelete : List (String × Index) → Document → List (String × Index) × Option String
  | [], _ => ([], Option.none)
  | (f, i) :: rest, doc =>
    match i.deleteDoc doc with
    | (i', some e) => ((f, i') :: rest, some e)
    | (i', Option.none) =>
      let (rest', err) := indexesDelete rest doc
      ((f, i') :: rest', err)

/-- The per-index `Delete(oldDoc); Insert(doc)` loop of
`Collection.Update` (`src/unnamed/part_003` lines 600–607). -/
def indexesUpdate : List (String × Index) → Document → Document → List (String × Index) × Option String
  | [], _, _ => ([], Option.none)
  | (f, i) :: rest, oldDoc, newDoc =>
    match i.deleteDoc oldDoc with
    | (i', some e) => ((f, i') :: rest, some e)
    | (i', Option.none) =>
      match i'.insertDoc newDoc with
      | (i'', some e) => ((f, i'') :: rest, some e)
      | (i'', Option.none) =>
        let (rest', err) := indexesUpdate rest oldDoc newDoc
        ((f, i'') :: rest', err)

/-- `storage.Collection` (`src/unnamed/part_003` lines 13–19): the
document map, the index map, and — standing for the `db` back pointer
used only to call `SaveCollection` — the persisted snapshot of this
collection's file. -/
structure Collection where
  name : String
  data : List (String × Document)
  indexes : List (String × Index)
  savedFile : List (String × Document)
deriving DecidableEq

/-- `storage.NewCollection` (`src/unnamed/part_003` lines 21–28); the
fresh collection has no file on disk, modelled as an empty snapshot. -/
def Collection.new (name : String) : Collection :=
  ⟨name, [], [], []⟩

/-- `MemoryStorage.SaveCollection` as seen from a collection mutator:
write the full current document map over the collection's file. -/
def Collection.save (c : Collection) : Collection :=
  { c with savedFile := c.data }

/-- `Collection.Insert`, current variant (`src/unnamed/part_003` lines
50–75, same as `src/unnamed/part_004` lines 51–76): an existing id
returns `nil` at once, leaving every part of the state untouched;
otherwise store the document, run the index-insert loop and persist.
The `CreateIndexesFromModel(doc)` call reflects over the `Document`
wrapper struct itself, whose two fields (`ID`, `Data`) carry no
`index:"true"` tag, so it creates nothing and returns `nil`. -/
def Collection.insert (c : Collection) (id : String) (doc : Document) : Collection × Option String :=
  if (c.data.lookup id).isSome then (c, Option.none)
  else
    let c1 := { c with data := assocPut c.data id doc }
    match indexesInsert c1.indexes doc with
    | (idxs, some e) => ({ c1 with indexes := idxs }, some e)
    | (idxs, Option.none) => (Collection.save { c1 with indexes := idxs }, Option.none)

/-- `Collection.Insert`, earlier variant (`src/unnamed/part_003` lines
317–341): identical except that an existing id is reported as an
error. -/
def Collection.insertV2 (c : Collection) (id : String) (doc : Document) : Collection × Option String :=
  if (c.data.lookup id).isSome then
    (c, some ("document with ID " ++ id ++ " already exists"))
  else
    let c1 := { c with data := assocPut c.data id doc }
    match indexesInsert c1.indexes doc with
    | (idxs, some e) => ({ c1 with indexes := idxs }, some e)
    | (idxs, Option.none) => (Collection.save { c1 with indexes := idxs }, Option.none)

/-- `Collection.Delete` (`src/unnamed/part_003` lines 518–540): a
missing id is an error with no state change; otherwise remove the
document, run the index-delete loop and persist. -/
def Collection.delete (c : Collection) (id : String) : Collection × Option String :=
  match c.data.lookup id with
  | Option.none => (c, some ("document with ID " ++ id ++ " not found"))
  | some doc =>
    let c1 := { c with data := assocErase c.data id }
    match indexesDelete c1.indexes doc with
    | (idxs, some e) => ({ c1 with indexes := idxs }, some e)
    | (idxs, Option.none) => (Collection.save { c1 with indexes := idxs }, Option.none)

/-- `Collection.Update` (`src/unnamed/part_003` lines 589–614): a
missing id is an error with no state change; otherwise replace the
stored document wholesale, run the per-index delete-old/insert-new
loop and persist. -/
def Collection.update (c : Collection) (id : String) (doc : Document) : Collection × Option String :=
  match c.data.lookup id with
  | Option.none => (c, some ("document with ID " ++ id ++ " not found"))
  | some oldDoc =>
    let c1 := { c with data := assocPut c.data id doc }
    match indexesUpdate c1.indexes oldDoc doc with
    | (idxs, some e) => ({ c1 with indexes := idxs }, some e)
    | (idxs, Option.none) => (Collection.save { c1 with indexes := idxs }, Option.none)

/-- The index-scan loop of `Collection.Find` (`src/unnamed/part_003`
lines 548–566): for each index able to serve the query, fetch its
candidate ids, keep the ones still present in the document map, and —
if any survive — return them as the whole result, without re-applying
the query.  When no index produces candidates, fall through to the
full scan (the accumulator is necessarily empty at that point). -/
def Collection.findAux (c : Collection) (q : Query) : List (String × Index) → List Document
  | [] => (c.data.filter (fun p => q.matches p.2.data)).map (·.2)
  | (_, i) :: rest =>
    if i.canUseIndex q then
      let docs := (i.findQ q).filterMap (fun did => c.data.lookup did)
      if docs.isEmpty then c.findAux q rest else docs
    else c.findAux q rest

/-- `Collection.Find`, current variant (`src/unnamed/part_003` lines
542–575, same logic as `src/unnamed/part_004` lines 107–151). -/
def Collection.find (c : Collection) (q : Query) : List Document :=
  c.findAux q c.indexes

/-- The population loop of `Collection.CreateIndex`: replay every
current document through `Index.Insert`, stopping at the first error
(`src/unnamed/part_003` lines 41–45). -/
def populateIndex : Index → List Document → Index × Option String
  | i, [] => (i, Option.none)
  | i, d :: ds =>
    match i.insertDoc d with
    | (i', some e) => (i', some ("error inserting document into index: " ++ e))
    | (i', Option.none) => populateIndex i' ds

/-- `Collection.CreateIndex` (`src/unnamed/part_003` lines 30–48):
fails if an index for the field exists; otherwise registers a fresh
index and populates it from the current documents (an error mid-replay
leaves the partially built index registered, as in the source, where
the index is put into the map before the replay loop). -/
def Collection.createIndex (c : Collection) (field : String) (options : IndexOptions) :
    Collection × Option String :=
  if (c.indexes.lookup field).isSome then
    (c, some ("index already exists for field " ++ field))
  else
    let (idx, err) := populateIndex (Index.new field options) (c.data.map (·.2))
    ({ c with indexes := assocPut c.indexes field idx }, err)

/-- `docs[start:end]` batching of `Collection.BulkInsert`
(`src/unnamed/part_003` lines 647–657): consecutive slices of
`batchSize` documents.  A `batchSize` of zero makes the Go batch-count
computation divide by zero; the model returns no batches and no theorem
uses it. -/
def chunksOfAux : Nat → Nat → List Document → List (List Document)
  | _, _, [] => []
  | _, 0, _ => []
  | 0, _ + 1, _ => []
  | fuel + 1, m + 1, l => l.take (m + 1) :: chunksOfAux fuel (m + 1) (l.drop (m + 1))

/-- `docs[start:end]` slicing: `l.length` steps of fuel always suffice
because each step drops at least one document. -/
def chunksOf (n : Nat) (l : List Document) : List (List Document) :=
  chunksOfAux l.length n l

/-- One batch goroutine of `Collection.BulkInsert` (`src/unnamed/part_003`
lines 660–675), run under the collection lock: insert each document of
the batch into the map, but on meeting an id already present send `nil`
on the error channel and abandon the rest of the batch.  The returned
flag records that the duplicate path was taken. -/
def insertBatch : List (String × Document) → List Document → List (String × Document) × Bool
  | data, [] => (data, false)
  | data, d :: ds =>
    if (data.lookup d.id).isSome then (data, true)
    else insertBatch (assocPut data d.id d) ds

/-- The per-document index maintenance pass at the end of
`Collection.BulkInsert` (`src/unnamed/part_003` lines 690–699); the
`CreateIndexesFromModel(doc)` call is again a no-op on the `Document`
wrapper. -/
def bulkIndex : Collection → List Document → Collection × Option String
  | c, [] => (c, Option.none)
  | c, d :: ds =>
    match indexesInsert c.indexes d with
    | (idxs, some e) => ({ c with indexes := idxs }, some e)
    | (idxs, Option.none) => bulkIndex { c with indexes := idxs } ds

/-- `Collection.BulkInsert` (`src/unnamed/part_003` lines 645–702): run
the batch goroutines (each fully serialized by the collection lock; the
model runs them in program order), then — if any batch hit a duplicate
id — return the `nil` received from the error channel as the overall
result, performing neither the save nor the index pass; otherwise save
once and run the index pass over all the documents. -/
def Collection.bulkInsert (c : Collection) (docs : List Document) (batchSize : Nat) :
    Collection × Option String :=
  let step := fun (acc : List (String × Document) × Bool) (batch : List Document) =>
    let (data', dup) := insertBatch acc.1 batch
    (data', acc.2 || dup)
  let (data', anyDup) := (chunksOf batchSize docs).foldl step (c.data, false)
  let c1 := { c with data := data' }
  if anyDup then (c1, Option.none)
  else bulkIndex (Collection.save c1) docs

/-- `storage.MemoryStorage` (`src/database/storage/memory_storage.go`
lines 13–18): the name-to-collection registry (the data directory and
model registry play no part in the claims). -/
structure MemoryStorage where
  collections : List (String × Collection)
deriving DecidableEq

/-- `MemoryStorage.CreateCollection` (`src/database/storage/memory_storage.go`
lines 90–103, same in `src/unnamed/part_005` and `part_006`): an
existing name is an error; otherwise register and return a fresh empty
collection. -/
def MemoryStorage.createCollection (ms : MemoryStorage) (name : String) :
    MemoryStorage × Except String Collection :=
  match ms.collections.lookup name with
  | some _ => (ms, .error ("collection '" ++ name ++ "' already exists"))
  | Option.none =>
    let col := Collection.new name
    (⟨assocPut ms.collections name col⟩, .ok col)

/-- `MemoryStorage.GetCollection`: the registered collection, or its
single not-found failure mode (`ErrCollectionNotFound` in
`src/unnamed/part_006`, an equivalent `fmt.Errorf` elsewhere). -/
def MemoryStorage.getCollection (ms : MemoryStorage) (name : String) : Option Collection :=
  ms.collections.lookup name

/-- `ZenithDB.CreateCollection`, current variant
(`src/database/zenithdb.go` lines 33–67): any `GetCollection` error —
including plain not-found — aborts with an error, and a successful
lookup returns the existing collection; the creation code below the
lookup is unreachable, because `GetCollection` never succeeds with a
nil collection. -/
def dbCreateCollection (ms : MemoryStorage) (name : String) :
    MemoryStorage × Except String Collection :=
  match ms.getCollection name with
  | Option.none => (ms, .error ("collection not found: " ++ name))
  | some col => (ms, .ok col)

/-- `ZenithDB.CreateCollection`, `src/unnamed/part_002` lines 34–64
(against the `part_006` storage whose `GetCollection` returns the
sentinel `ErrCollectionNotFound`): return the existing collection if
the lookup finds one, otherwise fall through to
`MemoryStorage.CreateCollection` and return the fresh collection. -/
def dbCreateCollectionV2 (ms : MemoryStorage) (name : String) :
    MemoryStorage × Except String Collection :=
  match ms.getCollection name with
  | some col => (ms, .ok col)
  | Option.none => ms.createCollection name

/-! ## Specification-side predicates

The predicates below state the index/document consistency invariant of
the spec's data model against the embedded state.  They are phrased
over finite quantifiers only, so they are decidable on concrete
states. -/

/-- The B-tree's own structural invariant: the item list is strictly
ascending under the tree's comparator (hence no two items are
comparator-equal), and all item values share one dynamic kind — the
comparator is only coherent (and in Go, panic-free) within one kind,
so a tree the source built without panicking satisfies this. -/
@[reducible] def TreeWF (t : Tree) : Prop :=
  List.Pairwise (fun a b => lessIndexEntry a b = true ∧ a.value.kind = b.value.kind) t

/-- `e` is comparator-distinguishable from every item of `t`. -/
@[reducible] def Separated (t : Tree) (e : IndexEntry) : Prop :=
  ∀ x ∈ t, lessIndexEntry x e = true ∨ lessIndexEntry e x = true

/-- Every item of `t` has a value of the same dynamic kind as `v` (the
comparator is only coherent — and in Go, panic-free — within one
kind). -/
@[reducible] def KindMatch (t : Tree) (v : Value) : Prop :=
  ∀ x ∈ t, x.value.kind = v.kind

/-- The live document stored under `k` resolves field `f` to exactly
`v`. -/
def docHasValue (data : List (String × Document)) (k f : String) (v : Value) : Bool :=
  match data.lookup k with
  | some d =>
    match getFieldValueIdx d.data f with
    | .ok w => w == v
    | .error _ => false
  | Option.none => false

/-- If the document binding `p` resolves the index's field, the entry
`(value, key)` is literally in the index's tree. -/
def entryPresent (idx : Index) (p : String × Document) : Bool :=
  match getFieldValueIdx p.2.data idx.field with
  | .ok v => decide ((⟨v, p.1⟩ : IndexEntry) ∈ idx.tree)
  | .error _ => true

/-- The spec's index/document consistency invariant for one index: the
tree is well formed, every tree entry is the current field value of a
live document (no stale and no deleted entries), and every live
document that has the field contributes its entry `(d.f, d.id)`. -/
@[reducible] def IndexReflects (idx : Index) (data : List (String × Document)) : Prop :=
  TreeWF idx.tree ∧
  (∀ e ∈ idx.tree, docHasValue data e.docID idx.field e.value = true) ∧
  (∀ p ∈ data, entryPresent idx p = true)

/-- The collection-level invariant: documents are keyed by their own
id, keys are unique, and every index reflects the document map. -/
@[reducible] def GoodCollection (c : Collection) : Prop :=
  (∀ p ∈ c.data, p.2.id = p.1) ∧
  (c.data.map Prod.fst).Nodup ∧
  (∀ p ∈ c.indexes, IndexReflects p.2 c.data)

/-- The amended claim's precondition for an insert: on every index the
new document's field resolves, and its value is comparator-distinct
from (and of the same kind as) every value already in that index —
i.e. no other live document carries an equal value on an indexed
field. -/
@[reducible] def InsertableDoc (c : Collection) (doc : Document) : Prop :=
  ∀ p ∈ c.indexes, ∃ v, getFieldValueIdx doc.data p.2.field = .ok v ∧
    Separated p.2.tree ⟨v, doc.id⟩ ∧ KindMatch p.2.tree v

/-- The amended claim's precondition for an update of the document at
`id`: on every index both the old and the new document resolve the
field, and the new value is comparator-distinct from (and of the same
kind as) every value that remains after the old entry is removed. -/
@[reducible] def UpdatableDoc (c : Collection) (id : String) (oldDoc newDoc : Document) : Prop :=
  ∀ p ∈ c.indexes, ∃ vOld vNew,
    getFieldValueIdx oldDoc.data p.2.field = .ok vOld ∧
    getFieldValueIdx newDoc.data p.2.field = .ok vNew ∧
    Separated (treeDelete p.2.tree ⟨vOld, id⟩) ⟨vNew, id⟩ ∧
    KindMatch (treeDelete p.2.tree ⟨vOld, id⟩) vNew

/-- The amended claim's precondition for a delete: the removed document
resolves the field of every index (so each `Index.Delete` completes). -/
@[reducible] def DeletableDoc (c : Collection) (oldDoc : Document) : Prop :=
  ∀ p ∈ c.indexes, ∃ v, getFieldValueIdx oldDoc.data p.2.field = .ok v

/-! ## General lemmas about the comparator and the tree model -/

theorem lessValue_irrefl (v : Value) : lessValue v v = false := by
  cases v <;> simp [lessValue, Value.sprintf]

theorem lessValue_trans {a b c : Value} (hk1 : a.kind = b.kind) (hk2 : b.kind = c.kind)
    (hab : lessValue a b = true) (hbc : lessValue b c = true) : lessValue a c = true := by
  cases a <;> cases b <;> simp [Value.kind] at hk1 <;>
    cases c <;> simp [Value.kind] at hk2 <;> simp_all [lessValue] <;>
    exact lt_trans hab hbc

theorem lessValue_conn {a b : Value} (hk : a.kind = b.kind)
    (h1 : lessValue a b = false) (h2 : lessValue b a = false) : a = b := by
  cases a <;> cases b <;> simp [Value.kind] at hk <;> simp_all [lessValue, Value.sprintf]
  case vBool.vBool x y =>
    cases x <;> cases y <;> simp_all <;>
      first
      | exact absurd h1 (by decide)
      | exact absurd h2 (by decide)
  case vInt.vInt x y => omega
  case vFloat.vFloat x y => exact le_antisymm h2 h1
  case vStr.vStr x y => exact String.ext (le_antisymm h2 h1)

theorem entryEq_of_value_eq {a b : IndexEntry} (h : a.value = b.value) :
    entryEq a b = true := by
  simp [entryEq, lessIndexEntry, h, lessValue_irrefl]

theorem entryEq_false_of_less {a b : IndexEntry}
    (h : lessIndexEntry a b = true ∨ lessIndexEntry b a = true) : entryEq a b = false := by
  rcases h with h | h <;> simp [entryEq, h]

theorem treeWF_sep {t : Tree} (hwf : TreeWF t) {a b : IndexEntry}
    (ha : a ∈ t) (hb : b ∈ t) (hne : a ≠ b) :
    lessIndexEntry a b = true ∨ lessIndexEntry b a = true := by
  have h : List.Pairwise
      (fun a b => lessIndexEntry a b = true ∨ lessIndexEntry b a = true) t :=
    hwf.imp (fun h => Or.inl h.1)
  exact h.forall (fun _ _ h => h.symm) ha hb hne

theorem treeWF_kind {t : Tree} (hwf : TreeWF t) {a b : IndexEntry}
    (ha : a ∈ t) (hb : b ∈ t) : a.value.kind = b.value.kind := by
  by_cases hne : a = b
  · rw [hne]
  · have h : List.Pairwise (fun a b => a.value.kind = b.value.kind) t :=
      hwf.imp (fun h => h.2)
    exact h.forall (fun _ _ h => h.symm) ha hb hne

theorem kindMatch_of_mem {t : Tree} {e : IndexEntry} (hwf : TreeWF t) (he : e ∈ t) :
    KindMatch t e.value :=
  fun _ hx => treeWF_kind hwf hx he

theorem mem_treeReplaceOrInsert {t : Tree} {e : IndexEntry} (hsep : Separated t e)
    (a : IndexEntry) : a ∈ treeReplaceOrInsert t e ↔ a = e ∨ a ∈ t := by
  induction t with
  | nil => simp [treeReplaceOrInsert]
  | cons x xs ih =>
    cases he : lessIndexEntry e x with
    | true =>
      simp only [treeReplaceOrInsert, he, if_true, List.mem_cons]
    | false =>
      have hx : lessIndexEntry x e = true := by
        rcases hsep x (by simp) with h | h
        · exact h
        · rw [h] at he; cases he
      simp only [treeReplaceOrInsert, he, hx, if_false, if_true, Bool.false_eq_true,
        List.mem_cons]
      rw [ih (fun y hy => hsep y (by simp [hy]))]
      tauto

theorem treeWF_treeReplaceOrInsert {t : Tree} {e : IndexEntry} (hwf : TreeWF t)
    (hsep : Separated t e) (hkind : KindMatch t e.value) :
    TreeWF (treeReplaceOrInsert t e) := by
  induction t with
  | nil => simp [treeReplaceOrInsert, TreeWF]
  | cons x xs ih =>
    rcases List.pairwise_cons.mp hwf with ⟨hxall, hxs⟩
    cases he : lessIndexEntry e x with
    | true =>
      simp only [treeReplaceOrInsert, he, if_true]
      refine List.Pairwise.cons ?_ hwf
      intro y hy
      rcases List.mem_cons.mp hy with rfl | hy
      · exact ⟨he, (hkind _ (by simp)).symm⟩
      · have h1 := hxall y hy
        exact ⟨lessValue_trans (hkind x (by simp)).symm h1.2 he h1.1,
          (hkind y (by simp [hy])).symm⟩
    | false =>
      have hx : lessIndexEntry x e = true := by
        rcases hsep x (by simp) with h | h
        · exact h
        · rw [h] at he; cases he
      simp only [treeReplaceOrInsert, he, hx, if_false, if_true, Bool.false_eq_true]
      refine List.Pairwise.cons ?_
        (ih hxs (fun y hy => hsep y (by simp [hy])) (fun y hy => hkind y (by simp [hy])))
      intro y hy
      rcases (mem_treeReplaceOrInsert (fun z hz => hsep z (by simp [hz])) y).mp hy with
        rfl | hy
      · exact ⟨hx, hkind x (by simp)⟩
      · exact hxall y hy

theorem mem_treeDelete {t : Tree} {e : IndexEntry} (hwf : TreeWF t)
    (hk : KindMatch t e.value) (a : IndexEntry) :
    a ∈ treeDelete t e ↔ a ∈ t ∧ entryEq a e = false := by
  induction t with
  | nil => simp [treeDelete]
  | cons x xs ih =>
    rcases List.pairwise_cons.mp hwf with ⟨hxall, hxs⟩
    cases h1 : lessIndexEntry x e with
    | true =>
      have hxe : entryEq x e = false := entryEq_false_of_less (Or.inl h1)
      simp only [treeDelete, h1, if_true, List.mem_cons]
      rw [ih hxs (fun y hy => hk y (by simp [hy]))]
      constructor
      · rintro (rfl | ⟨hy, hne⟩)
        · exact ⟨Or.inl rfl, hxe⟩
        · exact ⟨Or.inr hy, hne⟩
      · rintro ⟨rfl | hy, hne⟩
        · exact Or.inl rfl
        · exact Or.inr ⟨hy, hne⟩
    | false =>
      cases h2 : lessIndexEntry e x with
      | true =>
        simp only [treeDelete, h1, h2, if_true, if_false, Bool.false_eq_true]
        constructor
        · intro ha
          refine ⟨ha, ?_⟩
          rcases List.mem_cons.mp ha with rfl | hy
          · exact entryEq_false_of_less (Or.inr h2)
          · have hxy := hxall a hy
            exact entryEq_false_of_less (Or.inr
              (lessValue_trans (hk x (by simp)).symm hxy.2 h2 hxy.1))
        · exact fun h => h.1
      | false =>
        have hveq : x.value = e.value := lessValue_conn (hk x (by simp)) h1 h2
        simp only [treeDelete, h1, h2, if_false, Bool.false_eq_true, List.mem_cons]
        constructor
        · intro ha
          have hxa := hxall a ha
          refine ⟨Or.inr ha, ?_⟩
          have : lessIndexEntry e a = true := by
            have h := hxa.1
            unfold lessIndexEntry at h ⊢
            rwa [hveq] at h
          exact entryEq_false_of_less (Or.inr this)
        · rintro ⟨rfl | ha, hne⟩
          · rw [entryEq_of_value_eq hveq] at hne; cases hne
          · exact ha

theorem treeDelete_sublist (t : Tree) (e : IndexEntry) :
    List.Sublist (treeDelete t e) t := by
  induction t with
  | nil => simp [treeDelete]
  | cons x xs ih =>
    cases h1 : lessIndexEntry x e with
    | true =>
      simpa only [treeDelete, h1, if_true] using ih.cons₂ x
    | false =>
      cases h2 : lessIndexEntry e x with
      | true =>
        simp only [treeDelete, h1, h2, if_true, if_false, Bool.false_eq_true]
        exact List.Sublist.refl _
      | false =>
        simp only [treeDelete, h1, h2, if_false, Bool.false_eq_true]
        exact List.sublist_cons_self x xs

theorem treeWF_treeDelete {t : Tree} (hwf : TreeWF t) (e : IndexEntry) :
    TreeWF (treeDelete t e) :=
  List.Pairwise.sublist (treeDelete_sublist t e) hwf

theorem treeHas_eq_false {t : Tree} {e : IndexEntry} (hsep : Separated t e) :
    treeHas t e = false := by
  simp only [treeHas, List.any_eq_false]
  intro x hx
  simp [entryEq_false_of_less (hsep x hx)]

theorem treeAscendEq_eq_filter {t : Tree} {v : Value} (hwf : TreeWF t) :
    treeAscendEq t v = (t.filter (fun e => e.value == v)).map (·.docID) := by
  induction t with
  | nil => rfl
  | cons x xs ih =>
    rcases List.pairwise_cons.mp hwf with ⟨hxall, hxs⟩
    cases hlt : lessValue x.value v with
    | true =>
      have hne : (x.value == v) = false := by
        cases hbe : x.value == v
        · rfl
        · rw [eq_of_beq hbe, lessValue_irrefl] at hlt; cases hlt
      simp only [treeAscendEq, List.dropWhile_cons, hlt, if_true, List.filter_cons,
        hne, Bool.false_eq_true, if_false]
      exact ih hxs
    | false =>
      have hstop : ∀ y ∈ xs, (y.value == v) = false := by
        intro y hy
        cases hbe : y.value == v
        · rfl
        · exfalso
          have h := (hxall y hy).1
          unfold lessIndexEntry at h
          rw [eq_of_beq hbe] at h
          cases hbx : x.value == v with
          | true => rw [eq_of_beq hbx, lessValue_irrefl] at h; cases h
          | false => rw [h] at hlt; cases hlt
      cases hbx : x.value == v with
      | true =>
        have htail : List.takeWhile (fun e => e.value == v) xs =
            List.filter (fun e => e.value == v) xs := by
          cases xs with
          | nil => rfl
          | cons y ys =>
            rw [List.takeWhile_cons, hstop y (by simp), List.filter_eq_nil_iff.mpr ?_]
            · simp
            · intro z hz
              simp [hstop z hz]
        simp only [treeAscendEq, List.dropWhile_cons, hlt, Bool.false_eq_true, if_false,
          List.takeWhile_cons, hbx, if_true, List.filter_cons, List.map_cons]
        rw [htail]
      | false =>
        simp only [treeAscendEq, List.dropWhile_cons, hlt, Bool.false_eq_true, if_false,
          List.takeWhile_cons, hbx, List.filter_cons, List.map_cons]
        rw [List.filter_eq_nil_iff.mpr (fun z hz => by simp [hstop z hz])]

/-! ## Association-list lemmas for the Go-map model -/

theorem lookup_eq_none_iff {α : Type} {l : List (String × α)} {k : String} :
    l.lookup k = Option.none ↔ k ∉ l.map Prod.fst := by
  induction l with
  | nil => simp
  | cons p rest ih =>
    obtain ⟨k', v'⟩ := p
    by_cases h : k = k'
    · subst h; simp [List.lookup_cons]
    · simp [List.lookup_cons, beq_false_of_ne h, h, ih]

theorem mem_of_lookup_eq_some {α : Type} {l : List (String × α)} {k : String} {v : α}
    (h : l.lookup k = some v) : (k, v) ∈ l := by
  induction l with
  | nil => simp [List.lookup] at h
  | cons p rest ih =>
    obtain ⟨k', v'⟩ := p
    by_cases hk : k = k'
    · subst hk
      simp [List.lookup_cons] at h
      simp [h]
    · rw [List.lookup_cons, beq_false_of_ne hk] at h
      simp [ih h]

theorem lookup_assocPut_self {α : Type} (l : List (String × α)) (k : String) (v : α) :
    (assocPut l k v).lookup k = some v := by
  induction l with
  | nil => simp [assocPut, List.lookup_cons]
  | cons p rest ih =>
    obtain ⟨k', v'⟩ := p
    by_cases h : k' = k
    · simp [assocPut, h, List.lookup_cons]
    · rw [assocPut, if_neg (by simpa using h), List.lookup_cons,
        beq_false_of_ne (Ne.symm h)]
      exact ih

theorem lookup_assocPut_ne {α : Type} {l : List (String × α)} {k k' : String} {v : α}
    (h : k' ≠ k) : (assocPut l k v).lookup k' = l.lookup k' := by
  induction l with
  | nil => simp [assocPut, List.lookup_cons, beq_false_of_ne h]
  | cons p rest ih =>
    obtain ⟨k₁, v₁⟩ := p
    by_cases h1 : k₁ = k
    · subst h1
      rw [assocPut, if_pos (by simp), List.lookup_cons, List.lookup_cons,
        beq_false_of_ne h]
    · by_cases h2 : k' = k₁
      · subst h2
        rw [assocPut, if_neg (by simpa using h1), List.lookup_cons, List.lookup_cons]
        simp
      · rw [assocPut, if_neg (by simpa using h1), List.lookup_cons, List.lookup_cons,
          beq_false_of_ne h2]
        exact ih

theorem assocPut_of_lookup_none {α : Type} {l : List (String × α)} {k : String} (v : α)
    (h : l.lookup k = Option.none) : assocPut l k v = l ++ [(k, v)] := by
  induction l with
  | nil => simp [assocPut]
  | cons p rest ih =>
    obtain ⟨k₁, v₁⟩ := p
    by_cases h1 : k = k₁
    · subst h1; simp [List.lookup_cons] at h
    · rw [List.lookup_cons, beq_false_of_ne h1] at h
      have h1' : ¬(k₁ = k) := fun hh => h1 hh.symm
      rw [assocPut, if_neg (by simpa using h1'), ih h]
      simp

theorem keys_assocPut_of_some {α : Type} {l : List (String × α)} {k : String} {v : α}
    (h : (l.lookup k).isSome) : (assocPut l k v).map Prod.fst = l.map Prod.fst := by
  induction l with
  | nil => simp [List.lookup] at h
  | cons p rest ih =>
    obtain ⟨k₁, v₁⟩ := p
    by_cases h1 : k₁ = k
    · simp [assocPut, h1]
    · have h2 : ¬(k = k₁) := fun hh => h1 hh.symm
      rw [List.lookup_cons, beq_false_of_ne h2] at h
      simp [assocPut, h1, ih h]

theorem nodup_keys_assocPut {α : Type} {l : List (String × α)} {k : String} {v : α}
    (h : (l.map Prod.fst).Nodup) : ((assocPut l k v).map Prod.fst).Nodup := by
  cases hl : l.lookup k with
  | none =>
    rw [assocPut_of_lookup_none v hl]
    simp only [List.map_append, List.map_cons, List.map_nil]
    rw [List.nodup_append]
    refine ⟨h, by simp, ?_⟩
    simp only [List.disjoint_singleton]
    exact fun hmem => (lookup_eq_none_iff.mp hl) hmem
  | some w =>
    rw [keys_assocPut_of_some (by simp [hl])]
    exact h

theorem mem_assocPut {α : Type} {l : List (String × α)} {k : String} {v : α}
    {p : String × α} (hnd : (l.map Prod.fst).Nodup) :
    p ∈ assocPut l k v ↔ p = (k, v) ∨ (p ∈ l ∧ p.1 ≠ k) := by
  induction l with
  | nil => simp [assocPut]
  | cons q rest ih =>
    obtain ⟨k₁, v₁⟩ := q
    simp only [List.map_cons, List.nodup_cons] at hnd
    obtain ⟨hk₁, hndr⟩ := hnd
    by_cases h1 : k₁ = k
    · subst h1
      simp only [assocPut, beq_self_eq_true, if_true, List.mem_cons]
      constructor
      · rintro (rfl | hp)
        · exact Or.inl rfl
        · refine Or.inr ⟨Or.inr hp, ?_⟩
          intro hpk
          exact hk₁ (hpk ▸ (List.mem_map_of_mem Prod.fst hp))
      · rintro (rfl | ⟨rfl | hp, hne⟩)
        · exact Or.inl rfl
        · exact absurd rfl hne
        · exact Or.inr hp
    · simp only [assocPut, beq_iff_eq, h1, if_false, List.mem_cons]
      rw [ih hndr]
      constructor
      · rintro (rfl | rfl | hp)
        · exact Or.inr ⟨Or.inl rfl, h1⟩
        · exact Or.inl rfl
        · exact Or.inr ⟨Or.inr hp.1, hp.2⟩
      · rintro (rfl | ⟨rfl | hp, hne⟩)
        · exact Or.inr (Or.inl rfl)
        · exact Or.inl rfl
        · exact Or.inr (Or.inr ⟨hp, hne⟩)

theorem mem_assocErase {α : Type} {l : List (String × α)} {k : String}
    {p : String × α} (hnd : (l.map Prod.fst).Nodup) :
    p ∈ assocErase l k ↔ p ∈ l ∧ p.1 ≠ k := by
  induction l with
  | nil => simp [assocErase]
  | cons q rest ih =>
    obtain ⟨k₁, v₁⟩ := q
    simp only [List.map_cons, List.nodup_cons] at hnd
    obtain ⟨hk₁, hndr⟩ := hnd
    by_cases h1 : k₁ = k
    · subst h1
      simp only [assocErase, beq_self_eq_true, if_true, List.mem_cons]
      constructor
      · intro hp
        refine ⟨Or.inr hp, ?_⟩
        intro hpk
        exact hk₁ (hpk ▸ (List.mem_map_of_mem Prod.fst hp))
      · rintro ⟨rfl | hp, hne⟩
        · exact absurd rfl hne
        · exact hp
    · simp only [assocErase, beq_iff_eq, h1, if_false, List.mem_cons]
      rw [ih hndr]
      constructor
      · rintro (rfl | hp)
        · exact ⟨Or.inl rfl, h1⟩
        · exact ⟨Or.inr hp.1, hp.2⟩
      · rintro ⟨rfl | hp, hne⟩
        · exact Or.inl rfl
        · exact Or.inr ⟨hp, hne⟩

theorem lookup_assocErase_ne {α : Type} {l : List (String × α)} {k k' : String}
    (h : k' ≠ k) : (assocErase l k).lookup k' = l.lookup k' := by
  induction l with
  | nil => simp [assocErase]
  | cons q rest ih =>
    obtain ⟨k₁, v₁⟩ := q
    by_cases h1 : k₁ = k
    · subst h1
      rw [assocErase, if_pos (by simp), List.lookup_cons, beq_false_of_ne h]
    · by_cases h2 : k' = k₁
      · subst h2
        rw [assocErase, if_neg (by simpa using h1), List.lookup_cons, List.lookup_cons]
        simp
      · rw [assocErase, if_neg (by simpa using h1), List.lookup_cons, List.lookup_cons,
          beq_false_of_ne h2]
        exact ih

theorem assocErase_sublist {α : Type} (l : List (String × α)) (k : String) :
    List.Sublist (assocErase l k) l := by
  induction l with
  | nil => simp [assocErase]
  | cons q rest ih =>
    obtain ⟨k₁, v₁⟩ := q
    by_cases h1 : k₁ = k
    · simp only [assocErase, h1, beq_self_eq_true, if_true]
      exact List.sublist_cons_self _ _
    · simp only [assocErase, beq_iff_eq, h1, if_false]
      exact ih.cons₂ _

/-! ## Lemmas about the per-index loops of the collection mutators -/

theorem indexesInsert_ok {idxs : List (String × Index)} {doc : Document}
    (h : ∀ p ∈ idxs, (p.2.insertDoc doc).2 = Option.none) :
    indexesInsert idxs doc =
      (idxs.map (fun p => (p.1, (p.2.insertDoc doc).1)), Option.none) := by
  induction idxs with
  | nil => rfl
  | cons p rest ih =>
    obtain ⟨f, i⟩ := p
    have hp := h (f, i) (by simp)
    cases hins : i.insertDoc doc with
    | mk i' err =>
      rw [hins] at hp
      simp only at hp
      subst hp
      simp only [indexesInsert, hins, List.map_cons]
      rw [ih (fun q hq => h q (by simp [hq]))]

theorem indexesInsert_err_none_iff {idxs : List (String × Index)} {doc : Document} :
    (indexesInsert idxs doc).2 = Option.none ↔
      ∀ p ∈ idxs, (p.2.insertDoc doc).2 = Option.none := by
  induction idxs with
  | nil => simp [indexesInsert]
  | cons p rest ih =>
    obtain ⟨f, i⟩ := p
    cases hins : i.insertDoc doc with
    | mk i' err =>
      cases err with
      | none =>
        simp only [indexesInsert, hins]
        rw [show (indexesInsert rest doc).2 =
            ((f, i') :: (indexesInsert rest doc).1,
              (indexesInsert rest doc).2).2 from rfl] at ih
        constructor
        · intro hr q hq
          rcases List.mem_cons.mp hq with rfl | hq
          · rw [hins]
          · exact (ih.mp hr) q hq
        · intro hall
          exact ih.mpr (fun q hq => hall q (by simp [hq]))
      | some e =>
        simp only [indexesInsert, hins]
        constructor
        · intro hr; cases hr
        · intro hall
          have := hall (f, i) (by simp)
          rw [hins] at this
          cases this

theorem indexesDelete_ok {idxs : List (String × Index)} {doc : Document}
    (h : ∀ p ∈ idxs, (p.2.deleteDoc doc).2 = Option.none) :
    indexesDelete idxs doc =
      (idxs.map (fun p => (p.1, (p.2.deleteDoc doc).1)), Option.none) := by
  induction idxs with
  | nil => rfl
  | cons p rest ih =>
    obtain ⟨f, i⟩ := p
    have hp := h (f, i) (by simp)
    cases hdel : i.deleteDoc doc with
    | mk i' err =>
      rw [hdel] at hp
      simp only at hp
      subst hp
      simp only [indexesDelete, hdel, List.map_cons]
      rw [ih (fun q hq => h q (by simp [hq]))]

theorem indexesUpdate_ok {idxs : List (String × Index)} {oldDoc newDoc : Document}
    (h : ∀ p ∈ idxs, (p.2.deleteDoc oldDoc).2 = Option.none ∧
      ((p.2.deleteDoc oldDoc).1.insertDoc newDoc).2 = Option.none) :
    indexesUpdate idxs oldDoc newDoc =
      (idxs.map (fun p => (p.1, ((p.2.deleteDoc oldDoc).1.insertDoc newDoc).1)),
        Option.none) := by
  induction idxs with
  | nil => rfl
  | cons p rest ih =>
    obtain ⟨f, i⟩ := p
    have hp := h (f, i) (by simp)
    cases hdel : i.deleteDoc oldDoc with
    | mk i' derr =>
      rw [hdel] at hp
      simp only at hp
      obtain ⟨hderr, hierr⟩ := hp
      subst hderr
      cases hins : i'.insertDoc newDoc with
      | mk i'' ierr =>
        rw [hins] at hierr
        simp only at hierr
        subst hierr
        simp only [indexesUpdate, hdel, hins, List.map_cons]
        rw [ih (fun q hq => h q (by simp [hq]))]

theorem treeWF_nodup {t : Tree} (hwf : TreeWF t) : t.Nodup :=
  hwf.imp (fun h heq => by
    rw [heq] at h
    have h1 := h.1
    simp [lessIndexEntry, lessValue_irrefl] at h1)

theorem indexReflects_insertDoc {i : Index} {data : List (String × Document)}
    {doc : Document} {id : String} {v : Value}
    (hr : IndexReflects i data)
    (hv : getFieldValueIdx doc.data i.field = .ok v)
    (hsep : Separated i.tree ⟨v, id⟩)
    (hkind : KindMatch i.tree v)
    (hid : doc.id = id)
    (hfresh : data.lookup id = Option.none) :
    i.insertDoc doc
        = ({ i with tree := treeReplaceOrInsert i.tree ⟨v, id⟩ }, Option.none) ∧
    IndexReflects { i with tree := treeReplaceOrInsert i.tree ⟨v, id⟩ }
      (assocPut data id doc) := by
  obtain ⟨hwf, hed, hde⟩ := hr
  refine ⟨?_, ?_, ?_, ?_⟩
  · simp [Index.insertDoc, hv, hid, treeHas_eq_false hsep]
  · exact treeWF_treeReplaceOrInsert hwf hsep hkind
  · intro e' he'
    rcases (mem_treeReplaceOrInsert hsep e').mp he' with rfl | he'
    · simp only [docHasValue, lookup_assocPut_self, hv]
      simp
    · have hd := hed e' he'
      have hne : e'.docID ≠ id := by
        intro heq
        rw [heq] at hd
        simp only [docHasValue, hfresh] at hd
        cases hd
      simp only [docHasValue, lookup_assocPut_ne hne]
      simpa only [docHasValue] using hd
  · intro p hp
    rw [assocPut_of_lookup_none doc hfresh] at hp
    rcases List.mem_append.mp hp with hp | hp
    · have hq := hde p hp
      simp only [entryPresent] at hq ⊢
      cases hres : getFieldValueIdx p.2.data i.field with
      | ok w =>
        rw [hres] at hq
        simp only [decide_eq_true_eq] at hq
        simp [(mem_treeReplaceOrInsert hsep _).mpr (Or.inr hq)]
      | error e =>
        rfl
    · simp only [List.mem_singleton] at hp
      subst hp
      simp only [entryPresent, hv]
      simp [hid, (mem_treeReplaceOrInsert hsep (⟨v, id⟩ : IndexEntry)).mpr (Or.inl rfl)]

theorem indexReflects_deleteDoc {i : Index} {data : List (String × Document)}
    {id : String} {oldDoc : Document} {vOld : Value}
    (hr : IndexReflects i data)
    (hnd : (data.map Prod.fst).Nodup)
    (hkeys : ∀ p ∈ data, p.2.id = p.1)
    (hpres : data.lookup id = some oldDoc)
    (hvOld : getFieldValueIdx oldDoc.data i.field = .ok vOld) :
    i.deleteDoc oldDoc
        = ({ i with tree := treeDelete i.tree ⟨vOld, id⟩ }, Option.none) ∧
    IndexReflects { i with tree := treeDelete i.tree ⟨vOld, id⟩ }
      (assocErase data id) := by
  obtain ⟨hwf, hed, hde⟩ := hr
  have holdid : oldDoc.id = id := hkeys (id, oldDoc) (mem_of_lookup_eq_some hpres)
  have holdmem : (⟨vOld, id⟩ : IndexEntry) ∈ i.tree := by
    have hq := hde (id, oldDoc) (mem_of_lookup_eq_some hpres)
    simp only [entryPresent, hvOld, decide_eq_true_eq] at hq
    exact hq
  have hkOld : KindMatch i.tree vOld := kindMatch_of_mem hwf holdmem
  refine ⟨?_, ?_, ?_, ?_⟩
  · simp [Index.deleteDoc, hvOld, holdid]
  · exact treeWF_treeDelete hwf _
  · intro e' he'
    obtain ⟨hmem, hneq⟩ := (mem_treeDelete hwf hkOld e').mp he'
    have hd := hed e' hmem
    have hne : e'.docID ≠ id := by
      intro heq
      rw [heq] at hd
      simp only [docHasValue, hpres, hvOld] at hd
      have : vOld = e'.value := by
        cases hbe : vOld == e'.value
        · rw [hbe] at hd; cases hd
        · exact eq_of_beq hbe
      rw [entryEq_of_value_eq (a := e') (b := ⟨vOld, id⟩) this.symm] at hneq
      cases hneq
    simp only [docHasValue, lookup_assocErase_ne hne]
    simpa only [docHasValue] using hd
  · intro p hp
    obtain ⟨hmem, hne⟩ := (mem_assocErase hnd).mp hp
    have hq := hde p hmem
    simp only [entryPresent] at hq ⊢
    cases hres : getFieldValueIdx p.2.data i.field with
    | ok w =>
      rw [hres] at hq
      simp only [decide_eq_true_eq] at hq
      have hneq : entryEq ⟨w, p.1⟩ ⟨vOld, id⟩ = false := by
        refine entryEq_false_of_less (treeWF_sep hwf hq holdmem ?_)
        intro heq
        have : p.1 = id := congrArg IndexEntry.docID heq
        exact hne this
      simp [(mem_treeDelete hwf hkOld _).mpr ⟨hq, hneq⟩]
    | error e =>
      rfl

theorem indexReflects_updateDoc {i : Index} {data : List (String × Document)}
    {id : String} {oldDoc newDoc : Document} {vOld vNew : Value}
    (hr : IndexReflects i data)
    (hnd : (data.map Prod.fst).Nodup)
    (hkeys : ∀ p ∈ data, p.2.id = p.1)
    (hpres : data.lookup id = some oldDoc)
    (hvOld : getFieldValueIdx oldDoc.data i.field = .ok vOld)
    (hvNew : getFieldValueIdx newDoc.data i.field = .ok vNew)
    (hsep : Separated (treeDelete i.tree ⟨vOld, id⟩) ⟨vNew, id⟩)
    (hkind : KindMatch (treeDelete i.tree ⟨vOld, id⟩) vNew)
    (hnewid : newDoc.id = id) :
    (i.deleteDoc oldDoc).2 = Option.none ∧
    ((i.deleteDoc oldDoc).1.insertDoc newDoc).2 = Option.none ∧
    ((i.deleteDoc oldDoc).1.insertDoc newDoc).1
        = { i with
            tree := treeReplaceOrInsert (treeDelete i.tree ⟨vOld, id⟩) ⟨vNew, id⟩ } ∧
    IndexReflects
      { i with tree := treeReplaceOrInsert (treeDelete i.tree ⟨vOld, id⟩) ⟨vNew, id⟩ }
      (assocPut data id newDoc) := by
  obtain ⟨hwf, hed, hde⟩ := hr
  have holdid : oldDoc.id = id := hkeys (id, oldDoc) (mem_of_lookup_eq_some hpres)
  have holdmem : (⟨vOld, id⟩ : IndexEntry) ∈ i.tree := by
    have hq := hde (id, oldDoc) (mem_of_lookup_eq_some hpres)
    simp only [entryPresent, hvOld, decide_eq_true_eq] at hq
    exact hq
  have hkOld : KindMatch i.tree vOld := kindMatch_of_mem hwf holdmem
  have hdelWF : TreeWF (treeDelete i.tree ⟨vOld, id⟩) := treeWF_treeDelete hwf _
  have hstep1 : i.deleteDoc oldDoc
      = ({ i with tree := treeDelete i.tree ⟨vOld, id⟩ }, Option.none) := by
    simp [Index.deleteDoc, hvOld, holdid]
  have hstep2 : ({ i with tree := treeDelete i.tree ⟨vOld, id⟩ } : Index).insertDoc newDoc
      = ({ i with
            tree := treeReplaceOrInsert (treeDelete i.tree ⟨vOld, id⟩) ⟨vNew, id⟩ },
          Option.none) := by
    simp [Index.insertDoc, hvNew, hnewid, treeHas_eq_false hsep]
  refine ⟨by rw [hstep1], by rw [hstep1, hstep2], by rw [hstep1, hstep2], ?_, ?_, ?_⟩
  · exact treeWF_treeReplaceOrInsert hdelWF hsep hkind
  · intro e' he'
    rcases (mem_treeReplaceOrInsert hsep e').mp he' with rfl | he'
    · simp only [docHasValue, lookup_assocPut_self, hvNew]
      simp
    · obtain ⟨hmem, hneq⟩ := (mem_treeDelete hwf hkOld e').mp he'
      have hd := hed e' hmem
      have hne : e'.docID ≠ id := by
        intro heq
        rw [heq] at hd
        simp only [docHasValue, hpres, hvOld] at hd
        have : vOld = e'.value := by
          cases hbe : vOld == e'.value
          · rw [hbe] at hd; cases hd
          · exact eq_of_beq hbe
        rw [entryEq_of_value_eq (a := e') (b := ⟨vOld, id⟩) this.symm] at hneq
        cases hneq
      simp only [docHasValue, lookup_assocPut_ne hne]
      simpa only [docHasValue] using hd
  · intro p hp
    rcases (mem_assocPut hnd).mp hp with rfl | ⟨hmem, hne⟩
    · simp only [entryPresent, hvNew]
      simp [(mem_treeReplaceOrInsert hsep (⟨vNew, id⟩ : IndexEntry)).mpr (Or.inl rfl)]
    · have hq := hde p hmem
      simp only [entryPresent] at hq ⊢
      cases hres : getFieldValueIdx p.2.data i.field with
      | ok w =>
        rw [hres] at hq
        simp only [decide_eq_true_eq] at hq
        have hneq : entryEq ⟨w, p.1⟩ ⟨vOld, id⟩ = false := by
          refine entryEq_false_of_less (treeWF_sep hwf hq holdmem ?_)
          intro heq
          have : p.1 = id := congrArg IndexEntry.docID heq
          exact hne this
        have h1 : (⟨w, p.1⟩ : IndexEntry) ∈ treeDelete i.tree ⟨vOld, id⟩ :=
          (mem_treeDelete hwf hkOld _).mpr ⟨hq, hneq⟩
        simp [(mem_treeReplaceOrInsert hsep _).mpr (Or.inr h1)]
      | error e =>
        rfl

theorem compareGo_eq_none_of_kind_ne {a b : Value} (h : a.kind ≠ b.kind) :
    compareGo a b = Option.none := by
  cases a <;> cases b <;> first | rfl | simp [Value.kind] at h

theorem compareV0_eq_zero {v w : Value} (h : v.kind ≠ w.kind) :
    compareV0 (some v) w = 0 := by
  cases v <;> cases w <;> first | rfl | simp [Value.kind] at h

/-! ## Claim theorems -/

/-- C10: query-side field resolution marshals the payload to JSON and
re-parses it, so a stored number — Go `int` or `float64` — is always
resolved as a `float64`; consequently an equality condition whose
constant is an integer-typed value evaluates to false on any numeric
field, even when the magnitudes agree. -/
theorem c10_json_roundtrip_int_equality (d : DocData) (f : String) (v : Value)
    (hv : rawFieldLookup d f = some v) (hnum : v.kind = 2 ∨ v.kind = 3) :
    (∃ q : ℚ, getFieldValueQ d f = some (.vFloat q)) ∧
    (∀ m : Int, Condition.matches ⟨f, .eq, .vInt m, ""⟩ d = false) := by
  cases v with
  | vInt n =>
    refine ⟨⟨(n : ℚ), by simp [getFieldValueQ, hv, jsonDecode]⟩, ?_⟩
    intro m
    simp [Condition.matches, getFieldValueQ, hv, jsonDecode, deepEqual]
  | vFloat q =>
    refine ⟨⟨q, by simp [getFieldValueQ, hv, jsonDecode]⟩, ?_⟩
    intro m
    simp [Condition.matches, getFieldValueQ, hv, jsonDecode, deepEqual]
  | vNull => simp [Value.kind] at hnum
  | vBool b => simp [Value.kind] at hnum
  | vStr s => simp [Value.kind] at hnum

/-- Witness for C10 at a concrete input: a document storing the Go int 5
under `price` does not match the condition `price = int 5`. -/
theorem c10_json_roundtrip_int_equality_witness :
    Condition.matches ⟨"price", .eq, .vInt 5, ""⟩
      (DocData.strct [⟨"Price", "price", .vInt 5, false⟩]) = false :=
  (c10_json_roundtrip_int_equality (DocData.strct [⟨"Price", "price", .vInt 5, false⟩])
    "price" (.vInt 5) (by decide) (Or.inl rfl)).2 5

/-- C6 counterexample: in the `src/unnamed/part_011` variant, a `>=`
condition whose operands have different kinds evaluates to TRUE — its
`compare` returns `0` whenever either operand is not an `int` — so a
type mismatch does not make the condition false there, refuting the
claim as stated. -/
theorem c6_counterexample :
    getFieldValueQ (DocData.strct [⟨"Name", "name", .vStr "a", false⟩]) "name"
        = some (.vStr "a") ∧
    (Value.vStr "a").kind ≠ (Value.vInt 3).kind ∧
    Condition.matchesV0 ⟨"name", .ge, .vInt 3, ""⟩
      (DocData.strct [⟨"Name", "name", .vStr "a", false⟩]) = true :=
  ⟨by decide, by decide, by decide⟩

/-- C6 (amended): in the current `query.go`, a type mismatch on an
ordering operator makes the single condition false (never an error, the
scan continues); in the earlier `part_011` variant this only holds for
`>` and `<` — a mismatch there makes `>=` and `<=` conditions true,
because its `compare` returns `0` for any non-`int` operand. -/
theorem c6_type_mismatch (d : DocData) (c : Condition) (v : Value)
    (hrel : c.relation = "")
    (hres : getFieldValueQ d c.field = some v)
    (hmis : v.kind ≠ c.value.kind) :
    ((c.op = .gt ∨ c.op = .ge ∨ c.op = .lt ∨ c.op = .le) →
      c.matches d = false) ∧
    ((c.op = .gt ∨ c.op = .lt) → c.matchesV0 d = false) ∧
    ((c.op = .ge ∨ c.op = .le) → c.matchesV0 d = true) := by
  refine ⟨?_, ?_, ?_⟩
  · rintro (hop | hop | hop | hop) <;>
      simp [Condition.matches, hrel, hres, hop, compareGo_eq_none_of_kind_ne hmis]
  · rintro (hop | hop) <;>
      simp [Condition.matchesV0, hres, hop, compareV0_eq_zero hmis]
  · rintro (hop | hop) <;>
      simp [Condition.matchesV0, hres, hop, compareV0_eq_zero hmis]

/-- Witness for C6 (amended) at a concrete input: a `>` comparison of a
string field against an int constant is simply false in the current
query implementation. -/
theorem c6_type_mismatch_witness :
    Condition.matches ⟨"name", .gt, .vInt 3, ""⟩
      (DocData.strct [⟨"Name", "name", .vStr "b", false⟩]) = false :=
  (c6_type_mismatch (DocData.strct [⟨"Name", "name", .vStr "b", false⟩])
    ⟨"name", .gt, .vInt 3, ""⟩ (.vStr "b") rfl (by decide) (by decide)).1
    (Or.inl rfl)

/-- C4 counterexample: on an index over `Price` holding values 1 (doc
`a`) and 2 (doc `b`), the condition `Price > 1` returns `["a"]` — the
ids whose value EQUALS the bound — and omits `b`, the only id the
claimed range semantics would return. -/
theorem c4_counterexample :
    Index.findQ ⟨"Price", ⟨false⟩, [⟨.vInt 1, "a"⟩, ⟨.vInt 2, "b"⟩]⟩
        ⟨[⟨"Price", .gt, .vInt 1, ""⟩]⟩ = ["a"] ∧
    "b" ∉ Index.findQ ⟨"Price", ⟨false⟩, [⟨.vInt 1, "a"⟩, ⟨.vInt 2, "b"⟩]⟩
        ⟨[⟨"Price", .gt, .vInt 1, ""⟩]⟩ :=
  ⟨by decide, by decide⟩

/-- C4 (amended): `Index.Find` ignores the condition's operator
entirely: for EVERY operator it returns exactly the doc ids of the tree
entries whose value equals the first matching condition's value (an
equality tie scan), and the empty list — never an error — when nothing
matches. -/
theorem c4_find_equality_scan (i : Index) (q : Query) (c : Condition)
    (hwf : TreeWF i.tree)
    (hc : q.conditions.find? (fun c' => c'.field == i.field) = some c) :
    Index.findQ i q
      = (i.tree.filter (fun e => e.value == c.value)).map (·.docID) := by
  unfold Index.findQ
  rw [hc]
  exact treeAscendEq_eq_filter hwf

/-- Witness for C4 (amended) at a concrete input: a `<=` condition with
value 2 returns exactly the ids of entries with value equal to 2. -/
theorem c4_find_equality_scan_witness :
    Index.findQ ⟨"Qty", ⟨false⟩, [⟨.vInt 1, "a"⟩, ⟨.vInt 2, "b"⟩]⟩
      ⟨[⟨"Qty", .le, .vInt 2, ""⟩]⟩ = ["b"] := by
  rw [c4_find_equality_scan _ _ ⟨"Qty", .le, .vInt 2, ""⟩ (by decide) (by decide)]
  decide

/-- C8 counterexample: re-inserting the SAME document (same doc id,
same value) into a unique index fails with the unique-constraint error
instead of succeeding idempotently — `Tree.Has` compares entries by
value only, so the document's own entry triggers the violation. -/
theorem c8_counterexample :
    Index.insertDoc ⟨"Code", ⟨true⟩, [⟨.vInt 7, "a"⟩]⟩
        ⟨"a", .strct [⟨"Code", "code", .vInt 7, false⟩]⟩
      = (⟨"Code", ⟨true⟩, [⟨.vInt 7, "a"⟩]⟩,
          some "duplicate key value violates unique constraint") := by
  decide

/-- C8 (amended): on a unique index, inserting a document whose
resolved value is comparator-equal to ANY existing entry — whether that
entry belongs to a different doc id or to the document itself — fails
with the unique-constraint error and leaves the index unchanged; when
no equal-valued entry exists, the entry `(value, doc.id)` is inserted
via replace-or-insert. -/
theorem c8_unique_insert (i : Index) (doc : Document) (v : Value)
    (hu : i.options.unique = true)
    (hv : getFieldValueIdx doc.data i.field = .ok v) :
    (treeHas i.tree ⟨v, doc.id⟩ = true →
      i.insertDoc doc = (i, some "duplicate key value violates unique constraint")) ∧
    (treeHas i.tree ⟨v, doc.id⟩ = false →
      i.insertDoc doc =
        ({ i with tree := treeReplaceOrInsert i.tree ⟨v, doc.id⟩ }, Option.none)) := by
  constructor
  · intro hhas
    simp [Index.insertDoc, hv, hu, hhas]
  · intro hhas
    simp [Index.insertDoc, hv, hu, hhas]

/-- Witness for C8 (amended) at a concrete input: a second document with
an equal value on a unique index is rejected and the first document's
entry survives untouched. -/
theorem c8_unique_insert_witness :
    Index.insertDoc ⟨"Sku", ⟨true⟩, [⟨.vInt 4, "x"⟩]⟩
        ⟨"y", .strct [⟨"Sku", "sku", .vInt 4, false⟩]⟩
      = (⟨"Sku", ⟨true⟩, [⟨.vInt 4, "x"⟩]⟩,
          some "duplicate key value violates unique constraint") :=
  (c8_unique_insert ⟨"Sku", ⟨true⟩, [⟨.vInt 4, "x"⟩]⟩
    ⟨"y", .strct [⟨"Sku", "sku", .vInt 4, false⟩]⟩ (.vInt 4) rfl (by decide)).1
    (by decide)

/-- C9 counterexample: `MemoryStorage.CreateCollection` on a name whose
collection was already created returns an error, not the existing
collection — the storage-level operation is not idempotent. -/
theorem c9_counterexample :
    (MemoryStorage.createCollection ⟨[("c", Collection.new "c")]⟩ "c").2
        = .error "collection 'c' already exists" ∧
    MemoryStorage.createCollection ⟨[]⟩ "c"
        = (⟨[("c", Collection.new "c")]⟩, .ok (Collection.new "c")) :=
  ⟨rfl, rfl⟩

/-- C9 (amended): `MemoryStorage.CreateCollection` fails with
`AlreadyExists` when the name is registered (state unchanged) and
otherwise registers and returns a fresh empty collection.  Idempotent
create-or-return behaviour exists only in the `part_002`
`ZenithDB.CreateCollection` wrapper, which returns the existing
collection when present and creates otherwise; the current
`zenithdb.go` wrapper instead fails whenever the collection does NOT
yet exist, because `GetCollection`'s not-found error aborts it before
the creation code. -/
theorem c9_create_collection (ms : MemoryStorage) (name : String) :
    (∀ col, ms.getCollection name = some col →
      ms.createCollection name
          = (ms, .error ("collection '" ++ name ++ "' already exists")) ∧
      dbCreateCollection ms name = (ms, .ok col) ∧
      dbCreateCollectionV2 ms name = (ms, .ok col)) ∧
    (ms.getCollection name = Option.none →
      ms.createCollection name
          = (⟨assocPut ms.collections name (Collection.new name)⟩,
              .ok (Collection.new name)) ∧
      dbCreateCollection ms name
          = (ms, .error ("collection not found: " ++ name)) ∧
      dbCreateCollectionV2 ms name
          = (⟨assocPut ms.collections name (Collection.new name)⟩,
              .ok (Collection.new name))) := by
  constructor
  · intro col h
    have h' : ms.collections.lookup name = some col := h
    refine ⟨?_, ?_, ?_⟩
    · simp [MemoryStorage.createCollection, h']
    · simp [dbCreateCollection, MemoryStorage.getCollection, h']
    · simp [dbCreateCollectionV2, MemoryStorage.getCollection, h']
  · intro h
    have h' : ms.collections.lookup name = Option.none := h
    refine ⟨?_, ?_, ?_⟩
    · simp [MemoryStorage.createCollection, h']
    · simp [dbCreateCollection, MemoryStorage.getCollection, h']
    · simp [dbCreateCollectionV2, MemoryStorage.getCollection,
        MemoryStorage.createCollection, h']

/-- Witness for C9 (amended) at concrete inputs: the `part_002` wrapper
returns the existing collection unchanged, and the current wrapper
fails on a name never created. -/
theorem c9_create_collection_witness :
    dbCreateCollectionV2 ⟨[("u", Collection.new "u")]⟩ "u"
        = (⟨[("u", Collection.new "u")]⟩, .ok (Collection.new "u")) ∧
    dbCreateCollection ⟨[]⟩ "w"
        = (⟨[]⟩, .error ("collection not found: " ++ "w")) :=
  ⟨((c9_create_collection ⟨[("u", Collection.new "u")]⟩ "u").1
      (Collection.new "u") rfl).2.2,
   ((c9_create_collection ⟨[]⟩ "w").2 rfl).2.1⟩

/-- C3 counterexample: the current `Collection.Insert` returns success
(a `nil` error) when the id is already present, silently changing
nothing — it does not fail with a duplicate-id error as claimed. -/
theorem c3_counterexample :
    Collection.insert
        ⟨"t", [("a", ⟨"a", .strct [⟨"N", "n", .vInt 1, false⟩]⟩)], [],
          [("a", ⟨"a", .strct [⟨"N", "n", .vInt 1, false⟩]⟩)]⟩
        "a" ⟨"a", .strct [⟨"N", "n", .vInt 2, false⟩]⟩
      = (⟨"t", [("a", ⟨"a", .strct [⟨"N", "n", .vInt 1, false⟩]⟩)], [],
          [("a", ⟨"a", .strct [⟨"N", "n", .vInt 1, false⟩]⟩)]⟩, Option.none) := by
  decide

/-- C3 (amended): on a duplicate id the current `Collection.Insert`
returns success with zero side effects (documents, indexes and file all
unchanged), while the earlier variant fails with a duplicate-id error,
also with zero side effects; when the id is absent and every per-index
insert succeeds, both variants add the document, update every index and
persist the new document map before returning. -/
theorem c3_insert_behavior (c : Collection) (id : String) (doc : Document) :
    ((c.data.lookup id).isSome →
      Collection.insert c id doc = (c, Option.none) ∧
      Collection.insertV2 c id doc
          = (c, some ("document with ID " ++ id ++ " already exists"))) ∧
    (c.data.lookup id = Option.none →
      (∀ p ∈ c.indexes, (p.2.insertDoc doc).2 = Option.none) →
      Collection.insert c id doc
          = (⟨c.name, assocPut c.data id doc,
              c.indexes.map (fun p => (p.1, (p.2.insertDoc doc).1)),
              assocPut c.data id doc⟩, Option.none) ∧
      Collection.insertV2 c id doc = Collection.insert c id doc) := by
  constructor
  · intro hdup
    rw [Collection.insert, Collection.insertV2, if_pos hdup, if_pos hdup]
    exact ⟨rfl, rfl⟩
  · intro habs hidx
    have h1 := indexesInsert_ok hidx
    simp [Collection.insert, Collection.insertV2, habs, h1, Collection.save]

/-- Witness for C3 (amended) at concrete inputs: the earlier variant
rejects a duplicate id without side effects, and the current variant
completes a fresh insert with map update and persistence. -/
theorem c3_insert_behavior_witness :
    Collection.insertV2
        ⟨"t", [("a", ⟨"a", .strct [⟨"N", "n", .vInt 1, false⟩]⟩)], [],
          [("a", ⟨"a", .strct [⟨"N", "n", .vInt 1, false⟩]⟩)]⟩
        "a" ⟨"a", .strct [⟨"N", "n", .vInt 3, false⟩]⟩
      = (⟨"t", [("a", ⟨"a", .strct [⟨"N", "n", .vInt 1, false⟩]⟩)], [],
          [("a", ⟨"a", .strct [⟨"N", "n", .vInt 1, false⟩]⟩)]⟩,
          some ("document with ID " ++ "a" ++ " already exists")) ∧
    Collection.insert ⟨"t", [], [], []⟩ "b" ⟨"b", .strct [⟨"N", "n", .vInt 2, false⟩]⟩
      = (⟨"t", [("b", ⟨"b", .strct [⟨"N", "n", .vInt 2, false⟩]⟩)], [],
          [("b", ⟨"b", .strct [⟨"N", "n", .vInt 2, false⟩]⟩)]⟩, Option.none) :=
  ⟨((c3_insert_behavior
      ⟨"t", [("a", ⟨"a", .strct [⟨"N", "n", .vInt 1, false⟩]⟩)], [],
        [("a", ⟨"a", .strct [⟨"N", "n", .vInt 1, false⟩]⟩)]⟩
      "a" ⟨"a", .strct [⟨"N", "n", .vInt 3, false⟩]⟩).1 (by decide)).2,
   ((c3_insert_behavior ⟨"t", [], [], []⟩ "b"
      ⟨"b", .strct [⟨"N", "n", .vInt 2, false⟩]⟩).2 (by decide) (by decide)).1⟩

/-- C7: `Collection.Update` on an absent id fails with a not-found
error and leaves the whole collection state — documents, indexes and
persisted file — exactly unchanged; on a present id the stored document
is replaced wholesale by the new one (not merged), every index is
re-synced by a delete-of-old followed by insert-of-new, and the new
document map is persisted. -/
theorem c7_update_behavior (c : Collection) (id : String) (doc : Document) :
    (c.data.lookup id = Option.none →
      Collection.update c id doc
          = (c, some ("document with ID " ++ id ++ " not found"))) ∧
    (∀ oldDoc, c.data.lookup id = some oldDoc →
      (∀ p ∈ c.indexes, (p.2.deleteDoc oldDoc).2 = Option.none ∧
          ((p.2.deleteDoc oldDoc).1.insertDoc doc).2 = Option.none) →
      Collection.update c id doc
          = (⟨c.name, assocPut c.data id doc,
              c.indexes.map
                (fun p => (p.1, ((p.2.deleteDoc oldDoc).1.insertDoc doc).1)),
              assocPut c.data id doc⟩, Option.none) ∧
      (assocPut c.data id doc).lookup id = some doc) := by
  constructor
  · intro habs
    simp [Collection.update, habs]
  · intro oldDoc hpres hidx
    have h1 := indexesUpdate_ok hidx
    refine ⟨?_, lookup_assocPut_self _ _ _⟩
    simp [Collection.update, hpres, h1, Collection.save]

/-- Witness for C7 at concrete inputs: updating a missing id changes
nothing and errors; updating a present id replaces the document and
re-syncs the index entry from the old value to the new one. -/
theorem c7_update_behavior_witness :
    Collection.update
        ⟨"t", [("a", ⟨"a", .strct [⟨"N", "N", .vInt 1, false⟩]⟩)],
          [("N", ⟨"N", ⟨false⟩, [⟨.vInt 1, "a"⟩]⟩)],
          [("a", ⟨"a", .strct [⟨"N", "N", .vInt 1, false⟩]⟩)]⟩
        "zz" ⟨"zz", .strct [⟨"N", "N", .vInt 9, false⟩]⟩
      = (⟨"t", [("a", ⟨"a", .strct [⟨"N", "N", .vInt 1, false⟩]⟩)],
          [("N", ⟨"N", ⟨false⟩, [⟨.vInt 1, "a"⟩]⟩)],
          [("a", ⟨"a", .strct [⟨"N", "N", .vInt 1, false⟩]⟩)]⟩,
          some ("document with ID " ++ "zz" ++ " not found")) ∧
    Collection.update
        ⟨"t", [("a", ⟨"a", .strct [⟨"N", "N", .vInt 1, false⟩]⟩)],
          [("N", ⟨"N", ⟨false⟩, [⟨.vInt 1, "a"⟩]⟩)],
          [("a", ⟨"a", .strct [⟨"N", "N", .vInt 1, false⟩]⟩)]⟩
        "a" ⟨"a", .strct [⟨"N", "N", .vInt 2, false⟩]⟩
      = (⟨"t", [("a", ⟨"a", .strct [⟨"N", "N", .vInt 2, false⟩]⟩)],
          [("N", ⟨"N", ⟨false⟩, [⟨.vInt 2, "a"⟩]⟩)],
          [("a", ⟨"a", .strct [⟨"N", "N", .vInt 2, false⟩]⟩)]⟩, Option.none) :=
  ⟨(c7_update_behavior
      ⟨"t", [("a", ⟨"a", .strct [⟨"N", "N", .vInt 1, false⟩]⟩)],
        [("N", ⟨"N", ⟨false⟩, [⟨.vInt 1, "a"⟩]⟩)],
        [("a", ⟨"a", .strct [⟨"N", "N", .vInt 1, false⟩]⟩)]⟩
      "zz" ⟨"zz", .strct [⟨"N", "N", .vInt 9, false⟩]⟩).1 (by decide),
   ((c7_update_behavior
      ⟨"t", [("a", ⟨"a", .strct [⟨"N", "N", .vInt 1, false⟩]⟩)],
        [("N", ⟨"N", ⟨false⟩, [⟨.vInt 1, "a"⟩]⟩)],
        [("a", ⟨"a", .strct [⟨"N", "N", .vInt 1, false⟩]⟩)]⟩
      "a" ⟨"a", .strct [⟨"N", "N", .vInt 2, false⟩]⟩).2
      ⟨"a", .strct [⟨"N", "N", .vInt 1, false⟩]⟩ (by decide) (by decide)).1⟩

/-- C1: index usage changes the logical result of `Find`.  On a
collection holding prices 5 (doc `d1`) and 7 (doc `d2`) with an index
on `Price`, the query `Price > 5` returns `{d1}` — the index's
equality-tie candidates are returned without re-applying the query —
while the identical collection without the index full-scans with
`Matches` and returns `{d2}`.  The spec itself flags the missing
re-validation as a source bug to be fixed (§9), so the claim is right
and the code is wrong. -/
theorem c1_index_not_transparent :
    (Collection.find
        ⟨"products",
          [("d1", ⟨"d1", .strct [⟨"Price", "Price", .vFloat 5, false⟩]⟩),
           ("d2", ⟨"d2", .strct [⟨"Price", "Price", .vFloat 7, false⟩]⟩)],
          [("Price", ⟨"Price", ⟨false⟩, [⟨.vFloat 5, "d1"⟩, ⟨.vFloat 7, "d2"⟩]⟩)],
          [("d1", ⟨"d1", .strct [⟨"Price", "Price", .vFloat 5, false⟩]⟩),
           ("d2", ⟨"d2", .strct [⟨"Price", "Price", .vFloat 7, false⟩]⟩)]⟩
        ⟨[⟨"Price", .gt, .vFloat 5, ""⟩]⟩).map Document.id = ["d1"] ∧
    (Collection.find
        ⟨"products",
          [("d1", ⟨"d1", .strct [⟨"Price", "Price", .vFloat 5, false⟩]⟩),
           ("d2", ⟨"d2", .strct [⟨"Price", "Price", .vFloat 7, false⟩]⟩)],
          [], []⟩
        ⟨[⟨"Price", .gt, .vFloat 5, ""⟩]⟩).map Document.id = ["d2"] :=
  ⟨by decide, by decide⟩

/-- C5: `BulkInsert` of `[b, a']` — where `a'` duplicates the existing
id `a` — returns SUCCESS (`nil`): the duplicate is reported by no
error, the rest of the batch is silently abandoned, and because the
duplicate path skips both the save and the index pass, document `b`
sits in the document map while the persisted file and the `P` index
still lack it.  The spec itself calls this source behaviour a bug to be
replaced by per-id failure reporting (§9), so the claim is right and
the code is wrong. -/
theorem c5_bulkinsert_swallows_duplicates :
    Collection.bulkInsert
        ⟨"t", [("a", ⟨"a", .strct [⟨"P", "P", .vFloat 1, false⟩]⟩)],
          [("P", ⟨"P", ⟨false⟩, [⟨.vFloat 1, "a"⟩]⟩)],
          [("a", ⟨"a", .strct [⟨"P", "P", .vFloat 1, false⟩]⟩)]⟩
        [⟨"b", .strct [⟨"P", "P", .vFloat 2, false⟩]⟩,
         ⟨"a", .strct [⟨"P", "P", .vFloat 3, false⟩]⟩] 2
      = (⟨"t",
          [("a", ⟨"a", .strct [⟨"P", "P", .vFloat 1, false⟩]⟩),
           ("b", ⟨"b", .strct [⟨"P", "P", .vFloat 2, false⟩]⟩)],
          [("P", ⟨"P", ⟨false⟩, [⟨.vFloat 1, "a"⟩]⟩)],
          [("a", ⟨"a", .strct [⟨"P", "P", .vFloat 1, false⟩]⟩)]⟩,
          Option.none) := by
  decide

/-- C2 counterexample: two completed inserts of documents `a` and `b`
with EQUAL values on the indexed field `P` leave the index holding the
single entry `(9, "b")`: document `a` is live and has the field, yet no
entry `(9, "a")` remains — the comparator ignores doc ids, so
`ReplaceOrInsert` for `b` evicted `a`'s entry. -/
theorem c2_counterexample :
    (Collection.insert ⟨"t", [], [("P", Index.new "P" ⟨false⟩)], []⟩
        "a" ⟨"a", .strct [⟨"P", "P", .vFloat 9, false⟩]⟩).2 = Option.none ∧
    (Collection.insert
        (Collection.insert ⟨"t", [], [("P", Index.new "P" ⟨false⟩)], []⟩
          "a" ⟨"a", .strct [⟨"P", "P", .vFloat 9, false⟩]⟩).1
        "b" ⟨"b", .strct [⟨"P", "P", .vFloat 9, false⟩]⟩)
      = (⟨"t",
          [("a", ⟨"a", .strct [⟨"P", "P", .vFloat 9, false⟩]⟩),
           ("b", ⟨"b", .strct [⟨"P", "P", .vFloat 9, false⟩]⟩)],
          [("P", ⟨"P", ⟨false⟩, [⟨.vFloat 9, "b"⟩]⟩)],
          [("a", ⟨"a", .strct [⟨"P", "P", .vFloat 9, false⟩]⟩),
           ("b", ⟨"b", .strct [⟨"P", "P", .vFloat 9, false⟩]⟩)]⟩, Option.none) :=
  ⟨by decide, by decide⟩

/-- C2 (amended): the index/document consistency invariant holds after
every completed Insert, Update or Delete PROVIDED the live documents'
values on each indexed field are pairwise comparator-distinguishable
(equal values on an indexed field break it, as the counterexample
shows: only the most recent equal-valued document keeps an entry).
`GoodCollection` states the invariant — every index entry is the
current field value of a live document and every live document with the
field has its entry `(d.f, d.id)` in the tree; the final conjunct
derives the claim's exactly-one-entry form from it. -/
theorem c2_index_consistency (c : Collection) (id : String) (doc oldDoc : Document) :
    (GoodCollection c → c.data.lookup id = Option.none → doc.id = id →
      InsertableDoc c doc →
      (Collection.insert c id doc).2 = Option.none ∧
      GoodCollection (Collection.insert c id doc).1) ∧
    (GoodCollection c → c.data.lookup id = some oldDoc → doc.id = id →
      UpdatableDoc c id oldDoc doc →
      (Collection.update c id doc).2 = Option.none ∧
      GoodCollection (Collection.update c id doc).1) ∧
    (GoodCollection c → c.data.lookup id = some oldDoc → DeletableDoc c oldDoc →
      (Collection.delete c id).2 = Option.none ∧
      GoodCollection (Collection.delete c id).1) ∧
    (∀ c' : Collection, GoodCollection c' → ∀ p ∈ c'.indexes, ∀ q ∈ c'.data,
      ∀ v, getFieldValueIdx q.2.data p.2.field = .ok v →
      p.2.tree.count ⟨v, q.1⟩ = 1) := by
  refine ⟨?_, ?_, ?_, ?_⟩
  · intro hG hfresh hid hins
    subst hid
    obtain ⟨hkeys, hnd, hidx⟩ := hG
    have hpt : ∀ p ∈ c.indexes,
        (p.2.insertDoc doc).2 = Option.none ∧
        IndexReflects (p.2.insertDoc doc).1 (assocPut c.data doc.id doc) := by
      intro p hp
      obtain ⟨v, hv, hsep, hkind⟩ := hins p hp
      obtain ⟨hstep, hrefl⟩ :=
        indexReflects_insertDoc (hidx p hp) hv hsep hkind rfl hfresh
      rw [hstep]
      exact ⟨rfl, hrefl⟩
    have hall : ∀ p ∈ c.indexes, (p.2.insertDoc doc).2 = Option.none :=
      fun p hp => (hpt p hp).1
    have hstepC : Collection.insert c doc.id doc
        = (⟨c.name, assocPut c.data doc.id doc,
            c.indexes.map (fun p => (p.1, (p.2.insertDoc doc).1)),
            assocPut c.data doc.id doc⟩, Option.none) := by
      simp [Collection.insert, hfresh, indexesInsert_ok hall, Collection.save]
    rw [hstepC]
    refine ⟨rfl, ?_, nodup_keys_assocPut hnd, ?_⟩
    · intro p hp
      rw [assocPut_of_lookup_none doc hfresh] at hp
      rcases List.mem_append.mp hp with hp | hp
      · exact hkeys p hp
      · simp only [List.mem_singleton] at hp
        subst hp
        rfl
    · intro p hp
      rcases List.mem_map.mp hp with ⟨q, hq, rfl⟩
      exact (hpt q hq).2
  · intro hG hpres hid hupd
    subst hid
    obtain ⟨hkeys, hnd, hidx⟩ := hG
    have hpt : ∀ p ∈ c.indexes,
        ((p.2.deleteDoc oldDoc).2 = Option.none ∧
          ((p.2.deleteDoc oldDoc).1.insertDoc doc).2 = Option.none) ∧
        IndexReflects ((p.2.deleteDoc oldDoc).1.insertDoc doc).1
          (assocPut c.data doc.id doc) := by
      intro p hp
      obtain ⟨vOld, vNew, hvOld, hvNew, hsep, hkind⟩ := hupd p hp
      obtain ⟨h1, h2, h3, h4⟩ :=
        indexReflects_updateDoc (hidx p hp) hnd hkeys hpres hvOld hvNew hsep hkind rfl
      refine ⟨⟨h1, h2⟩, ?_⟩
      rw [h3]
      exact h4
    have hall : ∀ p ∈ c.indexes,
        (p.2.deleteDoc oldDoc).2 = Option.none ∧
          ((p.2.deleteDoc oldDoc).1.insertDoc doc).2 = Option.none :=
      fun p hp => (hpt p hp).1
    have hstepC : Collection.update c doc.id doc
        = (⟨c.name, assocPut c.data doc.id doc,
            c.indexes.map
              (fun p => (p.1, ((p.2.deleteDoc oldDoc).1.insertDoc doc).1)),
            assocPut c.data doc.id doc⟩, Option.none) := by
      simp [Collection.update, hpres, indexesUpdate_ok hall, Collection.save]
    rw [hstepC]
    refine ⟨rfl, ?_, nodup_keys_assocPut hnd, ?_⟩
    · intro p hp
      rcases (mem_assocPut hnd).mp hp with rfl | ⟨hp, _⟩
      · rfl
      · exact hkeys p hp
    · intro p hp
      rcases List.mem_map.mp hp with ⟨q, hq, rfl⟩
      exact (hpt q hq).2
  · intro hG hpres hdel
    obtain ⟨hkeys, hnd, hidx⟩ := hG
    have hpt : ∀ p ∈ c.indexes,
        (p.2.deleteDoc oldDoc).2 = Option.none ∧
        IndexReflects (p.2.deleteDoc oldDoc).1 (assocErase c.data id) := by
      intro p hp
      obtain ⟨vOld, hvOld⟩ := hdel p hp
      obtain ⟨hstep, hrefl⟩ :=
        indexReflects_deleteDoc (hidx p hp) hnd hkeys hpres hvOld
      rw [hstep]
      exact ⟨rfl, hrefl⟩
    have hall : ∀ p ∈ c.indexes, (p.2.deleteDoc oldDoc).2 = Option.none :=
      fun p hp => (hpt p hp).1
    have hstepC : Collection.delete c id
        = (⟨c.name, assocErase c.data id,
            c.indexes.map (fun p => (p.1, (p.2.deleteDoc oldDoc).1)),
            assocErase c.data id⟩, Option.none) := by
      simp [Collection.delete, hpres, indexesDelete_ok hall, Collection.save]
    rw [hstepC]
    refine ⟨rfl, ?_, ?_, ?_⟩
    · intro p hp
      exact hkeys p ((mem_assocErase hnd).mp hp).1
    · exact List.Pairwise.sublist ((assocErase_sublist c.data id).map Prod.fst) hnd
    · intro p hp
      rcases List.mem_map.mp hp with ⟨q, hq, rfl⟩
      exact (hpt q hq).2
  · intro c' hG p hp q hq v hres
    obtain ⟨hkeys, hnd, hidx⟩ := hG
    obtain ⟨hwf, hed, hde⟩ := hidx p hp
    have hq2 := hde q hq
    simp only [entryPresent, hres, decide_eq_true_eq] at hq2
    exact List.count_eq_one_of_mem (treeWF_nodup hwf) hq2

/-- Witness for C2 (amended) at a concrete input: inserting a document
with a fresh, distinct value into a good one-index collection completes
and preserves the invariant; the tree of that collection then counts
exactly one entry per live document value. -/
theorem c2_index_consistency_witness :
    ((Collection.insert ⟨"t", [], [("P", Index.new "P" ⟨false⟩)], []⟩
        "a" ⟨"a", .strct [⟨"P", "P", .vFloat 1, false⟩]⟩).2 = Option.none ∧
      GoodCollection (Collection.insert ⟨"t", [], [("P", Index.new "P" ⟨false⟩)], []⟩
        "a" ⟨"a", .strct [⟨"P", "P", .vFloat 1, false⟩]⟩).1) :=
  (c2_index_consistency ⟨"t", [], [("P", Index.new "P" ⟨false⟩)], []⟩ "a"
    ⟨"a", .strct [⟨"P", "P", .vFloat 1, false⟩]⟩
    ⟨"a", .strct [⟨"P", "P", .vFloat 1, false⟩]⟩).1
    (by decide) (by decide) rfl
    (fun p hp => by
      simp only [List.mem_singleton] at hp
      subst hp
      exact ⟨.vFloat 1, by decide, by decide, by decide⟩)

end ZenithDB
